import Mathlib

/-!
Shallow embedding of the concurrent resource-lifecycle core of the
MDLH dictionary backend:

* `QueryResultStore` / `QueryResult` — the per-session bounded LRU + TTL +
  byte-budget result cache (`src/backend/app/services/session.py`);
* `SnowflakeSession` / `SessionManager` — the session registry with idle
  expiry, liveness probing and idempotent removal (same file);
* `RateLimiter` — the sliding-window rate limiter
  (`src/backend/app/routers/connection.py`);
* the discovery-config cache constants and a model of the external
  `cachetools.TTLCache` dependency (`src/backend/app/services/system_config.py`).

Machine conventions: `datetime.utcnow()` timestamps are modelled as integers
counting seconds; a `timedelta(minutes=m)` comparison therefore becomes a
comparison against `m * 60`.  Python dictionaries / `OrderedDict`s are
modelled as association lists ordered from least recently used (front) to
most recently used (back), which is exactly the iteration order the code
relies on (`next(iter(...))` = front, `move_to_end` = move to back).
Mutation is modelled by explicit state passing.
-/

namespace MDLH

/-- Association-list lookup, mirroring Python `dict.get`: returns the value of
the first (and, for the unique-key states a `dict` can have, only) pair whose
key matches. -/
def lookupKey {κ β : Type} [DecidableEq κ] (k : κ) : List (κ × β) → Option β
  | [] => none
  | (k', v) :: rest => if k' = k then some v else lookupKey k rest

/-! ### QueryResult / QueryResultStore (src/backend/app/services/session.py) -/

def MAX_QUERY_RESULTS_PER_SESSION : Nat := 50

def QUERY_RESULT_TTL_MINUTES : Int := 5

def MAX_RESULT_SIZE_BYTES : Int := 10 * 1024 * 1024

/-- `QueryResult`: wrapper for query results with TTL tracking.  `data` is the
opaque result payload (`Dict[str, Any]` in the source); `size_bytes` is the
value the opaque estimator `_estimate_size` (a wrapper around
`sys.getsizeof(str(data))`) returned at construction time. -/
structure QueryResult (α : Type) where
  data : α
  created_at : Int
  last_accessed : Int
  size_bytes : Int
deriving Repr, DecidableEq

/-- `QueryResult.__init__` with the default `created_at`: both timestamps are
`now`, and the size estimate is computed from the data by the ambient
estimator `sizeEst` (the embedding of `_estimate_size`). -/
def QueryResult.make {α : Type} (sizeEst : α → Int) (d : α) (now : Int) :
    QueryResult α :=
  { data := d, created_at := now, last_accessed := now, size_bytes := sizeEst d }

/-- `QueryResult.is_expired`: `datetime.utcnow() - self.created_at >
timedelta(minutes=ttl_minutes)`. -/
def QueryResult.is_expired {α : Type} (r : QueryResult α) (now ttl_minutes : Int) :
    Bool :=
  now - r.created_at > ttl_minutes * 60

/-- `QueryResultStore`: LRU cache for query results with TTL and size limits.
`results` is the `OrderedDict`, least recently used first. -/
structure QueryResultStore (κ α : Type) where
  results : List (κ × QueryResult α)
  max_results : Nat
  ttl_minutes : Int
  max_size_bytes : Int
  total_size_bytes : Int
deriving Repr, DecidableEq

/-- `QueryResultStore.__init__` with explicit policy parameters (the source
defaults are the three constants above). -/
def QueryResultStore.init (κ α : Type) (max_results : Nat)
    (ttl_minutes max_size_bytes : Int) : QueryResultStore κ α :=
  { results := [], max_results := max_results, ttl_minutes := ttl_minutes,
    max_size_bytes := max_size_bytes, total_size_bytes := 0 }

variable {κ α : Type} [DecidableEq κ]

/-- `QueryResultStore._remove`: `pop(query_id, None)` and, when an entry was
present, debit its `size_bytes` from the running total. -/
def QueryResultStore.removeId (s : QueryResultStore κ α) (query_id : κ) :
    QueryResultStore κ α :=
  match lookupKey query_id s.results with
  | none => s
  | some r =>
    { s with results := s.results.filter (fun p => decide (p.1 ≠ query_id)),
             total_size_bytes := s.total_size_bytes - r.size_bytes }

/-- `QueryResultStore._evict_oldest`: remove the first entry of the ordered
dict (`next(iter(self._results))`), i.e. the least recently used one. -/
def QueryResultStore.evict_oldest (s : QueryResultStore κ α) :
    QueryResultStore κ α :=
  match s.results with
  | [] => s
  | (oldest_id, _) :: _ => s.removeId oldest_id

/-- `QueryResultStore._evict_expired`: collect the expired ids and `_remove`
each of them.  On the unique-key states an `OrderedDict` can have, the pop of
each collected id is the same as filtering the expired entries out in one pass
and debiting the sum of their sizes. -/
def QueryResultStore.evict_expired (s : QueryResultStore κ α) (now : Int) :
    QueryResultStore κ α :=
  { s with
    results := s.results.filter (fun p => !(p.2.is_expired now s.ttl_minutes)),
    total_size_bytes := s.total_size_bytes -
      ((s.results.filter (fun p => p.2.is_expired now s.ttl_minutes)).map
        (fun p => p.2.size_bytes)).sum }

/-- One fuelled unfolding of `while len(self._results) >= self._max_results:
self._evict_oldest()`.  The fuel is the current number of entries, which
bounds the number of iterations the Python loop can make; the extra
nonemptiness conjunct only differs from the source on the input
(`max_results = 0`, empty store) on which the Python loop never terminates. -/
def QueryResultStore.evictCountLoop :
    Nat → QueryResultStore κ α → QueryResultStore κ α
  | 0, s => s
  | fuel + 1, s =>
    if s.max_results ≤ s.results.length ∧ s.results.length ≠ 0 then
      QueryResultStore.evictCountLoop fuel s.evict_oldest
    else s

/-- One fuelled unfolding of `while self._total_size_bytes + result.size_bytes
> self._max_size_bytes and self._results: self._evict_oldest()` (the
nonemptiness conjunct is the source's own `and self._results`). -/
def QueryResultStore.evictBytesLoop :
    Nat → Int → QueryResultStore κ α → QueryResultStore κ α
  | 0, _, s => s
  | fuel + 1, z, s =>
    if s.max_size_bytes < s.total_size_bytes + z ∧ s.results.length ≠ 0 then
      QueryResultStore.evictBytesLoop fuel z s.evict_oldest
    else s

/-- `QueryResultStore.put`: build the new `QueryResult`, evict expired
entries, evict oldest entries while at count capacity, evict oldest entries
while the addition would exceed the byte budget (and the store is nonempty),
then assign `self._results[query_id] = result` (replacing any entry under
that key), credit `result.size_bytes` to the total — the replaced entry, if
any, is *not* debited — and `move_to_end(query_id)`.  Assignment followed by
`move_to_end` is dropping any pair under `query_id` and appending the new
pair at the back. -/
def QueryResultStore.put (s : QueryResultStore κ α) (sizeEst : α → Int)
    (query_id : κ) (d : α) (now : Int) : QueryResultStore κ α :=
  let result := QueryResult.make sizeEst d now
  let s1 := s.evict_expired now
  let s2 := QueryResultStore.evictCountLoop s1.results.length s1
  let s3 := QueryResultStore.evictBytesLoop s2.results.length result.size_bytes s2
  { s3 with
    results := s3.results.filter (fun p => decide (p.1 ≠ query_id)) ++
      [(query_id, result)],
    total_size_bytes := s3.total_size_bytes + result.size_bytes }

/-- The eviction phase of `put` (everything before the assignment): evict
expired entries, then the count-capacity loop, then the byte-budget loop for
an incoming result of size `z`. -/
def QueryResultStore.prePut (s : QueryResultStore κ α) (z now : Int) :
    QueryResultStore κ α :=
  let s1 := s.evict_expired now
  let s2 := QueryResultStore.evictCountLoop s1.results.length s1
  QueryResultStore.evictBytesLoop s2.results.length z s2

/-- `QueryResultStore.get`: `None` on a miss; on a hit of an expired entry
`_remove` it and return `None`; otherwise `touch` the entry (update
`last_accessed`), `move_to_end`, and return its data. -/
def QueryResultStore.get (s : QueryResultStore κ α) (query_id : κ)
    (now : Int) : QueryResultStore κ α × Option α :=
  match lookupKey query_id s.results with
  | none => (s, none)
  | some r =>
    if r.is_expired now s.ttl_minutes then (s.removeId query_id, none)
    else
      ({ s with results := s.results.filter (fun p => decide (p.1 ≠ query_id)) ++
          [(query_id, { r with last_accessed := now })] },
       some r.data)

/-- `QueryResultStore.clear`. -/
def QueryResultStore.clear (s : QueryResultStore κ α) : QueryResultStore κ α :=
  { s with results := [], total_size_bytes := 0 }

/-- Sum of the `size_bytes` of the entries actually stored; the quantity the
running `_total_size_bytes` is meant to track. -/
def sumSizes (l : List (κ × QueryResult α)) : Int :=
  (l.map (fun p => p.2.size_bytes)).sum

/-! ### RateLimiter (src/backend/app/routers/connection.py) -/

/-- Sliding-window rate limiter state.  `attempts` is the
`defaultdict(list)`: every key is mapped to a list of timestamps, absent keys
to `[]`.  Timestamps are `time.time()` values, modelled as integers. -/
structure RateLimiter (κ : Type) where
  attempts : κ → List Int
  max_attempts : Nat
  window_seconds : Int

/-- `RateLimiter.is_allowed`: prune the key's timestamps to the window, then
either deny with `int(window - (now - oldest)) + 1` (when the pruned count has
reached `max_attempts`; `oldest` is the first surviving timestamp) or record
`now` and allow.  `headI` stands in for Python's `[0]`, which can only be
reached on a nonempty list when `max_attempts ≥ 1` (with `max_attempts = 0`
and no recorded attempts the source raises `IndexError`). -/
def RateLimiter.is_allowed [DecidableEq κ] (rl : RateLimiter κ) (key : κ)
    (now : Int) : RateLimiter κ × Bool × Int :=
  let pruned := (rl.attempts key).filter (fun t => decide (now - t < rl.window_seconds))
  if rl.max_attempts ≤ pruned.length then
    ({ rl with attempts := fun k => if k = key then pruned else rl.attempts k },
     false, rl.window_seconds - (now - pruned.headI) + 1)
  else
    ({ rl with attempts := fun k => if k = key then pruned ++ [now] else rl.attempts k },
     true, 0)

/-- `connect_rate_limiter = RateLimiter(max_attempts=5, window_seconds=60)`,
with no attempts recorded yet. -/
def connect_rate_limiter : RateLimiter String :=
  { attempts := fun _ => [], max_attempts := 5, window_seconds := 60 }

/-- Run a sequence of `is_allowed` calls for the fixed key `"k"` at the given
times, collecting each call's `(allowed, seconds_until_reset)` outcome. -/
def rlRun : RateLimiter String → List Int → List (Bool × Int)
  | _, [] => []
  | rl, t :: ts =>
    let r := rl.is_allowed "k" t
    r.2 :: rlRun r.1 ts

/-! ### SnowflakeSession / SessionManager (src/backend/app/services/session.py) -/

/-- Wrapper around a Snowflake connection with metadata.  The external
connection is an opaque handle, modelled by an identifier `conn`; `alive`
records the answer the `SELECT 1` probe in `is_alive` would get for that
connection.  Authentication metadata fields (user, account, warehouse, ...)
play no role in the verified operations and are omitted. -/
structure SnowflakeSession where
  conn : Nat
  alive : Bool
  created_at : Int
  last_used : Int
  query_count : Nat
  query_results : QueryResultStore String Nat
deriving Repr, DecidableEq

/-- `SnowflakeSession.touch`: `last_used = utcnow()`, `query_count += 1`. -/
def SnowflakeSession.touch (s : SnowflakeSession) (now : Int) : SnowflakeSession :=
  { s with last_used := now, query_count := s.query_count + 1 }

/-- `SnowflakeSession.is_expired`: idle longer than `max_idle_minutes`. -/
def SnowflakeSession.is_expired (s : SnowflakeSession) (now max_idle_minutes : Int) :
    Bool :=
  now - s.last_used > max_idle_minutes * 60

/-- Session registry state.  `sessions` is the id → session dictionary;
`closes` is the log of `conn.close()` calls issued by `SnowflakeSession.close`
(one entry per call, recording which connection was closed), kept so that
close-counts are observable in the model. -/
structure SessionManager where
  sessions : List (String × SnowflakeSession)
  max_idle_minutes : Int
  closes : List Nat
deriving Repr, DecidableEq

/-- `SessionManager._remove_session_unsafe`: pop the session; when one was
present, call its `close()` (which clears its result store and closes the
underlying connection — the pop already removes the only reference to the
store, and the connection close is logged) and report `True`. -/
def SessionManager.remove_session_unsafe (m : SessionManager) (session_id : String) :
    SessionManager × Bool :=
  match lookupKey session_id m.sessions with
  | none => (m, false)
  | some sess =>
    ({ m with sessions := m.sessions.filter (fun p => decide (p.1 ≠ session_id)),
              closes := m.closes ++ [sess.conn] },
     true)

/-- `SessionManager.remove_session`: `_remove_session_unsafe` under the lock. -/
def SessionManager.remove_session (m : SessionManager) (session_id : String) :
    SessionManager × Bool :=
  m.remove_session_unsafe session_id

/-- `SessionManager.get_session`: miss on absent id; remove-and-miss on an
idle-expired session; probe the connection, remove-and-miss on a dead probe;
otherwise `touch` the session (in place — the dict keeps its position) and
return it. -/
def SessionManager.get_session (m : SessionManager) (session_id : String)
    (now : Int) : SessionManager × Option SnowflakeSession :=
  match lookupKey session_id m.sessions with
  | none => (m, none)
  | some sess =>
    if sess.is_expired now m.max_idle_minutes then
      ((m.remove_session_unsafe session_id).1, none)
    else if !sess.alive then
      ((m.remove_session_unsafe session_id).1, none)
    else
      ({ m with sessions := (m.sessions.map
          (fun p => if p.1 = session_id then (p.1, sess.touch now) else p)) },
       some (sess.touch now))

/-- Number of times `close()` has been issued against connection `c`. -/
def SessionManager.closeCount (m : SessionManager) (c : Nat) : Nat :=
  m.closes.count c

/-! ### Lock/probe event trace of `SessionManager.get_session`

The body of `get_session` is a single `with self._lock:` block; the trace
records, in program order, the lock acquisition, the dictionary lookup, the
`is_alive()` probe (a `SELECT 1` network round-trip) when it is reached, the
resulting state transition, and the lock release at the end of the block. -/

inductive RegistryEvent
  | lockAcquire
  | lockRelease
  | mapLookup
  | probe
  | removeClose
  | touchSession
deriving Repr, DecidableEq, BEq

/-- The event trace of one `SessionManager.get_session` call, read off the
source: every event between `lockAcquire` and `lockRelease` happens while the
registry lock is held. -/
def SessionManager.get_session_trace (m : SessionManager) (session_id : String)
    (now : Int) : List RegistryEvent :=
  [RegistryEvent.lockAcquire, RegistryEvent.mapLookup] ++
  (match lookupKey session_id m.sessions with
   | none => []
   | some sess =>
     if sess.is_expired now m.max_idle_minutes then [RegistryEvent.removeClose]
     else if !sess.alive then [RegistryEvent.probe, RegistryEvent.removeClose]
     else [RegistryEvent.probe, RegistryEvent.touchSession]) ++
  [RegistryEvent.lockRelease]

/-- Scan a trace with a running lock depth and report whether some `probe`
event occurs while the lock depth is positive (i.e. under the lock). -/
def probeHeld : Nat → List RegistryEvent → Bool
  | _, [] => false
  | depth, RegistryEvent.lockAcquire :: rest => probeHeld (depth + 1) rest
  | depth, RegistryEvent.lockRelease :: rest => probeHeld (depth - 1) rest
  | depth, RegistryEvent.probe :: rest => decide (0 < depth) || probeHeld depth rest
  | depth, _ :: rest => probeHeld depth rest

/-- Whether a trace performs a connection probe while holding the lock. -/
def probeUnderLock (tr : List RegistryEvent) : Bool :=
  probeHeld 0 tr

/-! ### Discovery-config cache (src/backend/app/services/system_config.py)

`SYSTEM_CONFIG_CACHE: TTLCache = TTLCache(maxsize=100, ttl=300)`.
`TTLCache` itself comes from the external `cachetools` dependency; the
structure below is a minimal model of its documented mapping behaviour
(per-item time-to-live, a maximum item count, and `cache[key] = value`
replacing any entry stored under `key`). -/

structure TTLCache (α : Type) where
  entries : List (String × (α × Int))
  maxsize : Nat
  ttl : Nat
deriving Repr, DecidableEq

/-- Model of `cache[key] = value` at time `now` on the external
`cachetools.TTLCache`: the new value replaces whatever was stored under the
key, stamped with the current time. -/
def TTLCache.setItem {α : Type} (c : TTLCache α) (key : String) (v : α)
    (now : Int) : TTLCache α :=
  { c with entries := c.entries.filter (fun p => decide (p.1 ≠ key)) ++ [(key, (v, now))] }

/-- The global per-session SystemConfig cache, as constructed at import time:
`TTLCache(maxsize=100, ttl=300)`.  The cached value (a SystemConfig dict) is
opaque to the caching layer and modelled by `Nat`. -/
def SYSTEM_CONFIG_CACHE : TTLCache Nat :=
  { entries := [], maxsize := 100, ttl := 300 }

/-! ### Concrete instantiations used by the scenarios below -/

/-- The key sequence of an ordered dictionary, front (least recently used)
first. -/
def keysOf {κ β : Type} (l : List (κ × β)) : List κ := l.map Prod.fst

/-- A size estimator that reports the payload itself as its size, used to
drive the byte budget with chosen sizes. -/
def estId : Nat → Int := fun n => (n : Int)

/-- A size estimator that reports size 0 for everything, used to keep the
byte budget inert while exercising the count/LRU policy. -/
def estZero : Nat → Int := fun _ => 0

/-- The result entry every `put` in the LRU scenario creates: payload 0,
created and last touched at time 0, estimated size 0. -/
def entry0 : QueryResult Nat := QueryResult.make estZero 0 0

/-- A result store in the canonical shape the LRU scenario walks through:
key list `l` (least recently used first), every entry equal to `entry0`,
count capacity `N`, the source's default TTL and byte budget, zero tracked
bytes. -/
def canonStore (N : Nat) (l : List Nat) : QueryResultStore Nat Nat :=
  { results := l.map (fun k => (k, entry0)),
    max_results := N,
    ttl_minutes := QUERY_RESULT_TTL_MINUTES,
    max_size_bytes := MAX_RESULT_SIZE_BYTES,
    total_size_bytes := 0 }

/-- `put` each key of `ks` in order (payload 0, size estimate 0, at time 0). -/
def insertSeq (ks : List Nat) (s : QueryResultStore Nat Nat) :
    QueryResultStore Nat Nat :=
  ks.foldl (fun s k => s.put estZero k 0 0) s

/-- A store with the default count capacity and TTL but a 100-byte budget
(`QueryResultStore(max_size_bytes=100)`). -/
def smallStore : QueryResultStore Nat Nat :=
  QueryResultStore.init Nat Nat MAX_QUERY_RESULTS_PER_SESSION
    QUERY_RESULT_TTL_MINUTES 100

/-- A store constructed with all the source's default parameters. -/
def defaultStore : QueryResultStore Nat Nat :=
  QueryResultStore.init Nat Nat MAX_QUERY_RESULTS_PER_SESSION
    QUERY_RESULT_TTL_MINUTES MAX_RESULT_SIZE_BYTES

/-- A rate limiter in the canonical shape the windowing scenario walks
through: the source's construction parameters (`max_attempts=5`,
`window_seconds=60`) with timestamp list `l` recorded for the key `"k"` and
nothing recorded for any other key. -/
def rlState (l : List Int) : RateLimiter String :=
  { attempts := fun k => if k = "k" then l else [],
    max_attempts := 5, window_seconds := 60 }

/-- A registered session whose connection (id 7) answers the probe. -/
def liveSession : SnowflakeSession :=
  { conn := 7, alive := true, created_at := 0, last_used := 0, query_count := 0,
    query_results := QueryResultStore.init String Nat
      MAX_QUERY_RESULTS_PER_SESSION QUERY_RESULT_TTL_MINUTES
      MAX_RESULT_SIZE_BYTES }

/-- A registered session whose connection (id 8) fails the probe. -/
def deadSession : SnowflakeSession :=
  { liveSession with conn := 8, alive := false }

/-- A session manager (default `max_idle_minutes=30`) holding a live session
under id `"a"` and a dead one under id `"b"`, with no connection closed yet. -/
def mgr0 : SessionManager :=
  { sessions := [("a", liveSession), ("b", deadSession)],
    max_idle_minutes := 30, closes := [] }

/-! ## Helper lemmas -/

variable {β : Type}

theorem lookupKey_eq_none {k : κ} {l : List (κ × β)} :
    lookupKey k l = none ↔ ∀ p ∈ l, p.1 ≠ k := by
  induction l with
  | nil => simp [lookupKey]
  | cons a t ih =>
    obtain ⟨a1, a2⟩ := a
    by_cases h : a1 = k
    · simp [lookupKey, h]
    · simp [lookupKey, h, ih]

theorem lookupKey_filter_self (k : κ) (l : List (κ × β)) :
    lookupKey k (l.filter (fun p => decide (p.1 ≠ k))) = none := by
  rw [lookupKey_eq_none]
  intro p hp
  simpa using List.of_mem_filter hp

theorem lookupKey_none_of_sublist {k : κ} {l l' : List (κ × β)}
    (hs : List.Sublist l' l) (h : lookupKey k l = none) : lookupKey k l' = none := by
  rw [lookupKey_eq_none] at h ⊢
  exact fun p hp => h p (hs.subset hp)

theorem filter_ne_eq_self_of_lookup_none {k : κ} {l : List (κ × β)}
    (h : lookupKey k l = none) :
    l.filter (fun p => decide (p.1 ≠ k)) = l := by
  rw [lookupKey_eq_none] at h
  exact List.filter_eq_self.mpr (fun p hp => by simpa using h p hp)

theorem keysOf_cons (a : κ × β) (t : List (κ × β)) :
    keysOf (a :: t) = a.1 :: keysOf t := rfl

theorem keysOf_append (l l' : List (κ × β)) :
    keysOf (l ++ l') = keysOf l ++ keysOf l' := by
  simp [keysOf]

theorem keysOf_filter_sublist (p : κ × β → Bool) (l : List (κ × β)) :
    List.Sublist (keysOf (l.filter p)) (keysOf l) :=
  (List.filter_sublist l).map Prod.fst

theorem not_mem_keysOf_of_lookup_none {k : κ} {l : List (κ × β)}
    (h : lookupKey k l = none) : k ∉ keysOf l := by
  rw [lookupKey_eq_none] at h
  intro hk
  obtain ⟨p, hp, hpk⟩ := List.mem_map.mp hk
  exact h p hp hpk

theorem sumSizes_nil : sumSizes ([] : List (κ × QueryResult α)) = 0 := rfl

theorem sumSizes_cons (a : κ × QueryResult α) (t : List (κ × QueryResult α)) :
    sumSizes (a :: t) = a.2.size_bytes + sumSizes t := by
  simp [sumSizes]

theorem sumSizes_append (l l' : List (κ × QueryResult α)) :
    sumSizes (l ++ l') = sumSizes l + sumSizes l' := by
  simp [sumSizes]

theorem sumSizes_filter_partition (p : κ × QueryResult α → Bool)
    (l : List (κ × QueryResult α)) :
    sumSizes (l.filter p) + sumSizes (l.filter (fun a => !(p a))) = sumSizes l := by
  induction l with
  | nil => simp [sumSizes]
  | cons a t ih =>
    by_cases h : p a
    · rw [List.filter_cons_of_pos h, List.filter_cons_of_neg (by simp [h]),
        sumSizes_cons, sumSizes_cons]
      omega
    · rw [List.filter_cons_of_neg (by simpa using h),
        List.filter_cons_of_pos (by simpa using h), sumSizes_cons, sumSizes_cons]
      omega

theorem sumSizes_filter_ne_of_lookup {k : κ} {r : QueryResult α} :
    ∀ {l : List (κ × QueryResult α)}, (keysOf l).Nodup →
    lookupKey k l = some r →
    sumSizes (l.filter (fun p => decide (p.1 ≠ k))) = sumSizes l - r.size_bytes := by
  intro l
  induction l with
  | nil => intro _ h; simp [lookupKey] at h
  | cons a t ih =>
    obtain ⟨a1, a2⟩ := a
    intro hnd hl
    rw [keysOf_cons, List.nodup_cons] at hnd
    by_cases h : a1 = k
    · rw [lookupKey, if_pos h] at hl
      injection hl with hr
      subst hr
      subst h
      rw [List.filter_cons_of_neg (by simp)]
      have ht : t.filter (fun p => decide (p.1 ≠ a1)) = t := by
        apply List.filter_eq_self.mpr
        intro p hp
        simp only [decide_eq_true_eq]
        intro hpk
        apply hnd.1
        show a1 ∈ keysOf t
        rw [← hpk]
        exact List.mem_map_of_mem Prod.fst hp
      rw [ht, sumSizes_cons]
      dsimp only
      omega
    · rw [lookupKey, if_neg h] at hl
      rw [List.filter_cons_of_pos (by simpa using h), sumSizes_cons, sumSizes_cons,
        ih hnd.2 hl]
      omega

/-! ## QueryResultStore operation specifications -/

theorem removeId_results (s : QueryResultStore κ α) (k : κ) :
    (s.removeId k).results = s.results.filter (fun p => decide (p.1 ≠ k)) := by
  unfold QueryResultStore.removeId
  cases h : lookupKey k s.results with
  | none => exact (filter_ne_eq_self_of_lookup_none h).symm
  | some r => rfl

theorem removeId_params (s : QueryResultStore κ α) (k : κ) :
    (s.removeId k).max_results = s.max_results
    ∧ (s.removeId k).ttl_minutes = s.ttl_minutes
    ∧ (s.removeId k).max_size_bytes = s.max_size_bytes := by
  unfold QueryResultStore.removeId
  cases lookupKey k s.results <;> exact ⟨rfl, rfl, rfl⟩

theorem removeId_acct (s : QueryResultStore κ α) (k : κ)
    (hnd : (keysOf s.results).Nodup)
    (hacct : s.total_size_bytes = sumSizes s.results) :
    (s.removeId k).total_size_bytes = sumSizes (s.removeId k).results := by
  unfold QueryResultStore.removeId
  cases h : lookupKey k s.results with
  | none => exact hacct
  | some r =>
    simp only
    rw [sumSizes_filter_ne_of_lookup hnd h, hacct]

theorem evict_oldest_spec (s : QueryResultStore κ α) :
    List.Sublist (s.evict_oldest).results s.results
    ∧ (s.evict_oldest).max_results = s.max_results
    ∧ (s.evict_oldest).ttl_minutes = s.ttl_minutes
    ∧ (s.evict_oldest).max_size_bytes = s.max_size_bytes
    ∧ ((keysOf s.results).Nodup → s.total_size_bytes = sumSizes s.results →
        (s.evict_oldest).total_size_bytes = sumSizes (s.evict_oldest).results
        ∧ (keysOf (s.evict_oldest).results).Nodup)
    ∧ (s.results ≠ [] → (s.evict_oldest).results.length < s.results.length) := by
  rcases eq_or_ne s.results [] with hnil | hne
  · have hev : s.evict_oldest = s := by
      unfold QueryResultStore.evict_oldest
      rw [hnil]
    rw [hev]
    exact ⟨List.Sublist.refl _, rfl, rfl, rfl, fun hnd hacct => ⟨hacct, hnd⟩,
      fun h => absurd hnil h⟩
  · obtain ⟨⟨k0, r0⟩, t, hres⟩ := List.exists_cons_of_ne_nil hne
    have hev : s.evict_oldest = s.removeId k0 := by
      unfold QueryResultStore.evict_oldest
      rw [hres]
    have hr : (s.removeId k0).results = s.results.filter (fun p => decide (p.1 ≠ k0)) :=
      removeId_results s k0
    have hsub : List.Sublist (s.evict_oldest).results s.results := by
      rw [hev, hr]; exact List.filter_sublist _
    refine ⟨hsub, by rw [hev]; exact (removeId_params s k0).1,
      by rw [hev]; exact (removeId_params s k0).2.1,
      by rw [hev]; exact (removeId_params s k0).2.2, ?_, ?_⟩
    · intro hnd hacct
      refine ⟨by rw [hev]; exact removeId_acct s k0 hnd hacct, ?_⟩
      exact hnd.sublist (by rw [hev, hr]; exact keysOf_filter_sublist _ _)
    · intro _
      rw [hev, hr, hres, List.filter_cons_of_neg (by simp)]
      simp only [List.length_cons]
      have := List.length_filter_le (fun p => decide (p.1 ≠ k0)) t
      omega

theorem evict_expired_spec (s : QueryResultStore κ α) (now : Int) :
    List.Sublist (s.evict_expired now).results s.results
    ∧ (s.evict_expired now).max_results = s.max_results
    ∧ (s.evict_expired now).ttl_minutes = s.ttl_minutes
    ∧ (s.evict_expired now).max_size_bytes = s.max_size_bytes
    ∧ (s.total_size_bytes = sumSizes s.results →
        (s.evict_expired now).total_size_bytes = sumSizes (s.evict_expired now).results)
    ∧ ((keysOf s.results).Nodup → (keysOf (s.evict_expired now).results).Nodup) := by
  refine ⟨List.filter_sublist _, rfl, rfl, rfl, ?_, ?_⟩
  · intro hacct
    have hpart := sumSizes_filter_partition
      (fun p => p.2.is_expired now s.ttl_minutes) s.results
    show s.total_size_bytes -
        sumSizes (s.results.filter (fun p => p.2.is_expired now s.ttl_minutes)) =
      sumSizes (s.results.filter (fun p => !(p.2.is_expired now s.ttl_minutes)))
    omega
  · intro hnd
    exact hnd.sublist (keysOf_filter_sublist _ _)

theorem evictCountLoop_spec (fuel : Nat) :
    ∀ (s : QueryResultStore κ α),
    List.Sublist (QueryResultStore.evictCountLoop fuel s).results s.results
    ∧ (QueryResultStore.evictCountLoop fuel s).max_results = s.max_results
    ∧ (QueryResultStore.evictCountLoop fuel s).ttl_minutes = s.ttl_minutes
    ∧ (QueryResultStore.evictCountLoop fuel s).max_size_bytes = s.max_size_bytes
    ∧ ((keysOf s.results).Nodup → s.total_size_bytes = sumSizes s.results →
        (QueryResultStore.evictCountLoop fuel s).total_size_bytes =
          sumSizes (QueryResultStore.evictCountLoop fuel s).results
        ∧ (keysOf (QueryResultStore.evictCountLoop fuel s).results).Nodup)
    ∧ (s.results.length ≤ fuel → 1 ≤ s.max_results →
        (QueryResultStore.evictCountLoop fuel s).results.length < s.max_results) := by
  induction fuel with
  | zero =>
    intro s
    refine ⟨List.Sublist.refl _, rfl, rfl, rfl, fun hnd hacct => ⟨hacct, hnd⟩, ?_⟩
    intro hlen hmax
    have h0 : QueryResultStore.evictCountLoop 0 s = s := rfl
    rw [h0]
    omega
  | succ n ih =>
    intro s
    rw [QueryResultStore.evictCountLoop]
    split
    next hguard =>
      obtain ⟨hs, hmax', httl', hmaxb', hacct', hlen'⟩ := ih s.evict_oldest
      obtain ⟨es, emax, ettl, emaxb, eacct, elen⟩ := evict_oldest_spec s
      have hne : s.results ≠ [] := by
        intro h
        rw [h] at hguard
        simp at hguard
      refine ⟨hs.trans es, hmax'.trans emax, httl'.trans ettl, hmaxb'.trans emaxb, ?_, ?_⟩
      · intro hnd hacct
        obtain ⟨a1, a2⟩ := eacct hnd hacct
        exact hacct' a2 a1
      · intro hlen hmax
        have h1 : s.evict_oldest.results.length < s.results.length := elen hne
        have h2 : s.evict_oldest.results.length ≤ n := by omega
        have h3 := hlen' h2 (by rw [emax]; exact hmax)
        rw [emax] at h3
        exact h3
    next hguard =>
      refine ⟨List.Sublist.refl _, rfl, rfl, rfl, fun hnd hacct => ⟨hacct, hnd⟩, ?_⟩
      intro hlen hmax
      rw [not_and_or] at hguard
      rcases hguard with h | h
      · omega
      · simp only [ne_eq, not_not] at h
        omega

theorem evictBytesLoop_spec (fuel : Nat) (z : Int) :
    ∀ (s : QueryResultStore κ α),
    List.Sublist (QueryResultStore.evictBytesLoop fuel z s).results s.results
    ∧ (QueryResultStore.evictBytesLoop fuel z s).max_results = s.max_results
    ∧ (QueryResultStore.evictBytesLoop fuel z s).ttl_minutes = s.ttl_minutes
    ∧ (QueryResultStore.evictBytesLoop fuel z s).max_size_bytes = s.max_size_bytes
    ∧ ((keysOf s.results).Nodup → s.total_size_bytes = sumSizes s.results →
        (QueryResultStore.evictBytesLoop fuel z s).total_size_bytes =
          sumSizes (QueryResultStore.evictBytesLoop fuel z s).results
        ∧ (keysOf (QueryResultStore.evictBytesLoop fuel z s).results).Nodup)
    ∧ (s.results.length ≤ fuel →
        ((QueryResultStore.evictBytesLoop fuel z s).total_size_bytes + z ≤ s.max_size_bytes
          ∨ (QueryResultStore.evictBytesLoop fuel z s).results = [])) := by
  induction fuel with
  | zero =>
    intro s
    refine ⟨List.Sublist.refl _, rfl, rfl, rfl, fun hnd hacct => ⟨hacct, hnd⟩, ?_⟩
    intro hlen
    right
    have h0 : QueryResultStore.evictBytesLoop 0 z s = s := rfl
    rw [h0]
    exact List.length_eq_zero.mp (by omega)
  | succ n ih =>
    intro s
    rw [QueryResultStore.evictBytesLoop]
    split
    next hguard =>
      obtain ⟨hs, hmax', httl', hmaxb', hacct', hpost'⟩ := ih s.evict_oldest
      obtain ⟨es, emax, ettl, emaxb, eacct, elen⟩ := evict_oldest_spec s
      have hne : s.results ≠ [] := by
        intro h
        rw [h] at hguard
        simp at hguard
      refine ⟨hs.trans es, hmax'.trans emax, httl'.trans ettl, hmaxb'.trans emaxb, ?_, ?_⟩
      · intro hnd hacct
        obtain ⟨a1, a2⟩ := eacct hnd hacct
        exact hacct' a2 a1
      · intro hlen
        have h1 : s.evict_oldest.results.length < s.results.length := elen hne
        have h2 : s.evict_oldest.results.length ≤ n := by omega
        rcases hpost' h2 with h3 | h3
        · left
          rw [emaxb] at h3
          exact h3
        · right
          exact h3
    next hguard =>
      refine ⟨List.Sublist.refl _, rfl, rfl, rfl, fun hnd hacct => ⟨hacct, hnd⟩, ?_⟩
      intro hlen
      rw [not_and_or] at hguard
      rcases hguard with h | h
      · left
        omega
      · right
        simp only [ne_eq, not_not] at h
        exact List.length_eq_zero.mp h

theorem prePut_spec (s : QueryResultStore κ α) (z now : Int) :
    List.Sublist (s.prePut z now).results s.results
    ∧ (s.prePut z now).max_results = s.max_results
    ∧ (s.prePut z now).ttl_minutes = s.ttl_minutes
    ∧ (s.prePut z now).max_size_bytes = s.max_size_bytes
    ∧ ((keysOf s.results).Nodup → s.total_size_bytes = sumSizes s.results →
        (s.prePut z now).total_size_bytes = sumSizes (s.prePut z now).results
        ∧ (keysOf (s.prePut z now).results).Nodup)
    ∧ (1 ≤ s.max_results → (s.prePut z now).results.length < s.max_results)
    ∧ ((s.prePut z now).total_size_bytes + z ≤ s.max_size_bytes
        ∨ (s.prePut z now).results = []) := by
  obtain ⟨e_sub, e_max, e_ttl, e_maxb, e_acct, e_nd⟩ := evict_expired_spec s now
  obtain ⟨c_sub, c_max, c_ttl, c_maxb, c_acct, c_len⟩ :=
    evictCountLoop_spec (s.evict_expired now).results.length (s.evict_expired now)
  obtain ⟨b_sub, b_max, b_ttl, b_maxb, b_acct, b_post⟩ :=
    evictBytesLoop_spec
      (QueryResultStore.evictCountLoop (s.evict_expired now).results.length
        (s.evict_expired now)).results.length z
      (QueryResultStore.evictCountLoop (s.evict_expired now).results.length
        (s.evict_expired now))
  have hpre : s.prePut z now = QueryResultStore.evictBytesLoop
      (QueryResultStore.evictCountLoop (s.evict_expired now).results.length
        (s.evict_expired now)).results.length z
      (QueryResultStore.evictCountLoop (s.evict_expired now).results.length
        (s.evict_expired now)) := rfl
  rw [hpre]
  refine ⟨(b_sub.trans c_sub).trans e_sub,
    (b_max.trans c_max).trans e_max,
    (b_ttl.trans c_ttl).trans e_ttl,
    (b_maxb.trans c_maxb).trans e_maxb, ?_, ?_, ?_⟩
  · intro hnd hacct
    obtain ⟨h3, h4⟩ := c_acct (e_nd hnd) (e_acct hacct)
    exact b_acct h4 h3
  · intro hmax
    have h5 := c_len (Nat.le_refl _) (by rw [e_max]; exact hmax)
    have h6 := b_sub.length_le
    rw [e_max] at h5
    omega
  · rcases b_post (Nat.le_refl _) with h | h
    · left
      rw [c_maxb, e_maxb] at h
      exact h
    · right
      exact h

/-- **C1** (corrected). Capacity bound of `QueryResultStore.put`.  After any
`put` into a store with `max_results ≥ 1` the store holds at most
`max_results` entries.  The byte bound claimed by the spec does *not* hold as
stated: provided the running total is exact (it equals the sum of the stored
sizes, over distinct keys — see the accounting bug recorded separately) and
the put's `query_id` is not currently stored, what holds after the put is
`total_size_bytes ≤ max max_size_bytes (size of the new result)`: a single
result larger than the whole budget is still admitted, becomes the sole
occupant, and drives `_total_size_bytes` *above* `max_size_bytes`.  Exact
accounting and key distinctness are preserved, so this invariant propagates
through any sequence of fresh-key `put`s. -/
theorem resultCache_put_capacity (s : QueryResultStore κ α) (sizeEst : α → Int)
    (qid : κ) (d : α) (now : Int) :
    (1 ≤ s.max_results → (s.put sizeEst qid d now).results.length ≤ s.max_results)
    ∧ (s.total_size_bytes = sumSizes s.results → (keysOf s.results).Nodup →
       lookupKey qid s.results = none →
       (s.put sizeEst qid d now).total_size_bytes ≤
         max s.max_size_bytes (sizeEst d)
       ∧ (s.put sizeEst qid d now).total_size_bytes =
           sumSizes (s.put sizeEst qid d now).results
       ∧ (keysOf (s.put sizeEst qid d now).results).Nodup) := by
  obtain ⟨p_sub, p_max, p_ttl, p_maxb, p_acct, p_len, p_post⟩ :=
    prePut_spec s (sizeEst d) now
  have hput : s.put sizeEst qid d now =
      { s.prePut (sizeEst d) now with
        results := (s.prePut (sizeEst d) now).results.filter
            (fun p => decide (p.1 ≠ qid)) ++ [(qid, QueryResult.make sizeEst d now)],
        total_size_bytes := (s.prePut (sizeEst d) now).total_size_bytes + sizeEst d } :=
    rfl
  constructor
  · intro hmax
    rw [hput]
    simp only [List.length_append, List.length_cons, List.length_nil]
    have h1 := List.length_filter_le (fun p => decide (p.1 ≠ qid))
      (s.prePut (sizeEst d) now).results
    have h2 := p_len hmax
    omega
  · intro hacct hnd hfresh
    have hole : lookupKey qid (s.prePut (sizeEst d) now).results = none :=
      lookupKey_none_of_sublist p_sub hfresh
    have hfilter : (s.prePut (sizeEst d) now).results.filter
        (fun p => decide (p.1 ≠ qid)) = (s.prePut (sizeEst d) now).results :=
      filter_ne_eq_self_of_lookup_none hole
    obtain ⟨pacct, pnd⟩ := p_acct hnd hacct
    refine ⟨?_, ?_, ?_⟩
    · rw [hput]
      show (s.prePut (sizeEst d) now).total_size_bytes + sizeEst d ≤
        max s.max_size_bytes (sizeEst d)
      rcases p_post with h | h
      · exact le_trans h (le_max_left _ _)
      · have hz : (s.prePut (sizeEst d) now).total_size_bytes = 0 := by
          rw [pacct, h]
          rfl
        rw [hz, zero_add]
        exact le_max_right _ _
    · rw [hput]
      show (s.prePut (sizeEst d) now).total_size_bytes + sizeEst d =
        sumSizes ((s.prePut (sizeEst d) now).results.filter
            (fun p => decide (p.1 ≠ qid)) ++ [(qid, QueryResult.make sizeEst d now)])
      rw [hfilter, sumSizes_append, pacct, sumSizes_cons, sumSizes_nil]
      show _ = _ + ((sizeEst d) + 0)
      omega
    · rw [hput]
      show (keysOf ((s.prePut (sizeEst d) now).results.filter
          (fun p => decide (p.1 ≠ qid)) ++ [(qid, QueryResult.make sizeEst d now)])).Nodup
      rw [hfilter, keysOf_append]
      rw [List.nodup_append]
      refine ⟨pnd, List.nodup_singleton _, ?_⟩
      intro a ha hmem
      have : a = qid := by simpa [keysOf] using hmem
      subst this
      exact not_mem_keysOf_of_lookup_none hole ha

/-- Counterexample to **C1** as stated: into a `QueryResultStore` with
`max_size_bytes = 100` (and otherwise default parameters), `put` a result
whose estimated size is 150.  After the put the tracked
`_total_size_bytes` is 150, strictly above `max_size_bytes` — the byte
invariant `totalBytes ≤ maxBytes` is violated by exactly the oversized
sole-occupant write the claim says it survives. -/
theorem resultCache_put_capacity_counterexample :
    ¬ ((smallStore.put estId 1 150 0).total_size_bytes ≤
        (smallStore.put estId 1 150 0).max_size_bytes) := by
  decide

/-- Witness instantiating `resultCache_put_capacity` on the same oversized
put: both capacity conclusions hold there, with the byte total landing at
`max max_size_bytes (estId 150) = 150`. -/
theorem resultCache_put_capacity_witness :
    ((smallStore.put estId 1 150 0).results.length ≤ smallStore.max_results)
    ∧ ((smallStore.put estId 1 150 0).total_size_bytes ≤
         max smallStore.max_size_bytes (estId 150)
       ∧ (smallStore.put estId 1 150 0).total_size_bytes =
           sumSizes ((smallStore.put estId 1 150 0).results)
       ∧ (keysOf ((smallStore.put estId 1 150 0).results)).Nodup) :=
  ⟨(resultCache_put_capacity smallStore estId 1 150 0).1 (by decide),
   (resultCache_put_capacity smallStore estId 1 150 0).2 (by decide) (by decide)
     (by decide)⟩

/-- **C9** (code bug). `put` under an already-present `query_id` replaces the
entry in the ordered dict but credits the new size *without debiting the
replaced entry's size*: after `put(1, 30); put(1, 30)` on a default store the
tracked `_total_size_bytes` is 60 while the store holds exactly one entry of
size 30 — the tracked total no longer equals the sum of the stored sizes,
contradicting the memory-tracking purpose of the field (`_remove` and
`clear` do keep it exact). -/
theorem resultCache_put_overwrite_leak :
    ((defaultStore.put estId 1 30 0).put estId 1 30 0).total_size_bytes = 60
    ∧ sumSizes ((defaultStore.put estId 1 30 0).put estId 1 30 0).results = 30
    ∧ ((defaultStore.put estId 1 30 0).put estId 1 30 0).results =
        [(1, QueryResult.make estId 30 0)] := by
  refine ⟨?_, ?_, ?_⟩ <;> decide

/-- **C2** (confirmed). TTL invariant of `QueryResultStore.get`: whenever
`get` returns a value, the returned entry's age `now - created_at` is within
the store's TTL; and a stored entry whose age exceeds the TTL is removed by
`get`, which returns `None`, leaving no entry under that id. -/
theorem resultCache_get_ttl (s : QueryResultStore κ α) (qid : κ) (now : Int) :
    (∀ v, (s.get qid now).2 = some v →
      ∃ r, lookupKey qid s.results = some r ∧ r.data = v ∧
        now - r.created_at ≤ s.ttl_minutes * 60)
    ∧ (∀ r, lookupKey qid s.results = some r →
        s.ttl_minutes * 60 < now - r.created_at →
        (s.get qid now).2 = none
        ∧ lookupKey qid (s.get qid now).1.results = none) := by
  constructor
  · intro v hv
    unfold QueryResultStore.get at hv
    cases h : lookupKey qid s.results with
    | none =>
      rw [h] at hv
      simp at hv
    | some r =>
      rw [h] at hv
      cases he : r.is_expired now s.ttl_minutes
      · simp [he] at hv
        refine ⟨r, rfl, hv, ?_⟩
        simp [QueryResult.is_expired] at he
        omega
      · simp [he] at hv
  · intro r hr hexp
    have he : r.is_expired now s.ttl_minutes = true := by
      simp [QueryResult.is_expired]
      omega
    have hg : s.get qid now = (s.removeId qid, none) := by
      unfold QueryResultStore.get
      rw [hr]
      simp [he]
    rw [hg]
    refine ⟨rfl, ?_⟩
    show lookupKey qid (s.removeId qid).results = none
    rw [removeId_results]
    exact lookupKey_filter_self _ _

/-- Witness for `resultCache_get_ttl`: a result stored at time 0 in a store
with the default 5-minute TTL is expired at time 400; `get` returns `None`
and removes it. -/
theorem resultCache_get_ttl_witness :
    ((defaultStore.put estId 1 30 0).get 1 400).2 = none
    ∧ lookupKey 1 ((defaultStore.put estId 1 30 0).get 1 400).1.results = none :=
  (resultCache_get_ttl (defaultStore.put estId 1 30 0) 1 400).2
    (QueryResult.make estId 30 0) (by decide) (by decide)

/-- Helper: updating the value stored under `k` in place (as Python's
`self._sessions[session_id]`-holding dict does when the session object is
mutated) is visible to a subsequent lookup. -/
theorem lookupKey_map_update {l : List (κ × β)} {k : κ} {v : β} (x : β)
    (h : lookupKey k l = some v) :
    lookupKey k (l.map (fun p => if p.1 = k then (p.1, x) else p)) = some x := by
  induction l with
  | nil => simp [lookupKey] at h
  | cons a t ih =>
    obtain ⟨a1, a2⟩ := a
    by_cases h1 : a1 = k
    · subst h1
      have hhead : (if (a1, a2).1 = a1 then ((a1, a2).1, x) else (a1, a2))
          = (a1, x) := by simp
      rw [List.map_cons, hhead]
      simp [lookupKey]
    · have hhead : (if (a1, a2).1 = k then ((a1, a2).1, x) else (a1, a2))
          = (a1, a2) := by simp [h1]
      rw [lookupKey, if_neg h1] at h
      rw [List.map_cons, hhead, lookupKey, if_neg h1]
      exact ih h

/-- **C3** (confirmed). `SessionManager.remove_session` is idempotent: on an
absent session id it returns `False` and leaves the state unchanged (so every
repeat also returns `False`); on a present id the first call returns `True`
and issues exactly one `close()` on the session's connection, and the repeat
call returns `False` without closing the connection again. -/
theorem sessionManager_remove_idempotent (m : SessionManager) (sid : String) :
    (lookupKey sid m.sessions = none → m.remove_session sid = (m, false))
    ∧ (∀ sess, lookupKey sid m.sessions = some sess →
        (m.remove_session sid).2 = true
        ∧ (m.remove_session sid).1.closeCount sess.conn
            = m.closeCount sess.conn + 1
        ∧ ((m.remove_session sid).1.remove_session sid).2 = false
        ∧ ((m.remove_session sid).1.remove_session sid).1.closeCount sess.conn
            = m.closeCount sess.conn + 1) := by
  have habs : ∀ m' : SessionManager, lookupKey sid m'.sessions = none →
      m'.remove_session sid = (m', false) := by
    intro m' h
    unfold SessionManager.remove_session SessionManager.remove_session_unsafe
    rw [h]
  constructor
  · intro h
    exact habs m h
  · intro sess h
    have h1 : m.remove_session sid =
        ({ m with sessions := m.sessions.filter (fun p => decide (p.1 ≠ sid)),
                  closes := m.closes ++ [sess.conn] }, true) := by
      unfold SessionManager.remove_session SessionManager.remove_session_unsafe
      rw [h]
    have h2 : lookupKey sid (m.remove_session sid).1.sessions = none := by
      rw [h1]
      exact lookupKey_filter_self _ _
    have h3 : (m.remove_session sid).1.remove_session sid =
        ((m.remove_session sid).1, false) :=
      habs _ h2
    refine ⟨by rw [h1], ?_, by rw [h3], ?_⟩
    · rw [h1]
      simp [SessionManager.closeCount]
    · rw [h3, h1]
      simp [SessionManager.closeCount]

/-- Witness for `sessionManager_remove_idempotent` at the registered live
session `"a"` of `mgr0`: first removal reports `True` and closes connection 7
once; the duplicate removal reports `False` and the close-count stays 1. -/
theorem sessionManager_remove_idempotent_witness :
    (mgr0.remove_session "a").2 = true
    ∧ (mgr0.remove_session "a").1.closeCount liveSession.conn
        = mgr0.closeCount liveSession.conn + 1
    ∧ ((mgr0.remove_session "a").1.remove_session "a").2 = false
    ∧ ((mgr0.remove_session "a").1.remove_session "a").1.closeCount liveSession.conn
        = mgr0.closeCount liveSession.conn + 1 :=
  (sessionManager_remove_idempotent mgr0 "a").2 liveSession (by decide)

/-- **C4** (confirmed). `SessionManager.get_session` on a registered session:
if the connection probe fails, the session is removed (its connection closed
once), the call returns `None`, and so does every later `get_session` for the
same id; if the probe succeeds and the idle timeout has not elapsed, the call
returns the session touched — `last_used` set to `now` and `query_count`
incremented — and the registry holds the touched session. -/
theorem sessionManager_get_probe (m : SessionManager) (sid : String) (now : Int)
    (sess : SnowflakeSession) (hs : lookupKey sid m.sessions = some sess) :
    (sess.alive = false →
      (m.get_session sid now).2 = none
      ∧ lookupKey sid (m.get_session sid now).1.sessions = none
      ∧ (m.get_session sid now).1.closeCount sess.conn
          = m.closeCount sess.conn + 1
      ∧ ∀ now2, ((m.get_session sid now).1.get_session sid now2).2 = none)
    ∧ (sess.alive = true → sess.is_expired now m.max_idle_minutes = false →
      (m.get_session sid now).2 = some (sess.touch now)
      ∧ (sess.touch now).last_used = now
      ∧ (sess.touch now).query_count = sess.query_count + 1
      ∧ lookupKey sid (m.get_session sid now).1.sessions = some (sess.touch now)) := by
  have hrm : m.remove_session_unsafe sid =
      ({ m with sessions := m.sessions.filter (fun p => decide (p.1 ≠ sid)),
                closes := m.closes ++ [sess.conn] }, true) := by
    unfold SessionManager.remove_session_unsafe
    rw [hs]
  have habs : ∀ (m' : SessionManager) (t : Int),
      lookupKey sid m'.sessions = none → m'.get_session sid t = (m', none) := by
    intro m' t h
    unfold SessionManager.get_session
    rw [h]
  constructor
  · intro ha
    have hg : m.get_session sid now = ((m.remove_session_unsafe sid).1, none) := by
      unfold SessionManager.get_session
      rw [hs]
      cases he : sess.is_expired now m.max_idle_minutes
      · simp [he, ha]
      · simp [he]
    have hlook : lookupKey sid (m.get_session sid now).1.sessions = none := by
      rw [hg, hrm]
      exact lookupKey_filter_self _ _
    refine ⟨by rw [hg], hlook, ?_, ?_⟩
    · rw [hg, hrm]
      simp [SessionManager.closeCount]
    · intro now2
      rw [habs _ now2 hlook]
  · intro ha he
    have hg : m.get_session sid now =
        ({ m with sessions := (m.sessions.map
            (fun p => if p.1 = sid then (p.1, sess.touch now) else p)) },
         some (sess.touch now)) := by
      unfold SessionManager.get_session
      rw [hs]
      simp [he, ha]
    refine ⟨by rw [hg], rfl, rfl, ?_⟩
    rw [hg]
    exact lookupKey_map_update (sess.touch now) hs

/-- Witness for `sessionManager_get_probe`: in `mgr0`, looking up the dead
session `"b"` removes it (connection 8 closed once) and returns `None`, also
on repeat; looking up the live session `"a"` at time 5 returns it touched. -/
theorem sessionManager_get_probe_witness :
    ((mgr0.get_session "b" 0).2 = none
      ∧ lookupKey "b" (mgr0.get_session "b" 0).1.sessions = none
      ∧ (mgr0.get_session "b" 0).1.closeCount deadSession.conn
          = mgr0.closeCount deadSession.conn + 1
      ∧ ∀ now2, ((mgr0.get_session "b" 0).1.get_session "b" now2).2 = none)
    ∧ ((mgr0.get_session "a" 5).2 = some (liveSession.touch 5)
      ∧ (liveSession.touch 5).last_used = 5
      ∧ (liveSession.touch 5).query_count = liveSession.query_count + 1
      ∧ lookupKey "a" (mgr0.get_session "a" 5).1.sessions
          = some (liveSession.touch 5)) :=
  ⟨(sessionManager_get_probe mgr0 "b" 0 deadSession (by decide)).1 (by decide),
   (sessionManager_get_probe mgr0 "a" 5 liveSession (by decide)).2 (by decide)
     (by decide)⟩

/-! ## RateLimiter -/

theorem is_allowed_step_allow (rl : RateLimiter κ) (key : κ) (now : Int)
    (l : List Int) (hl : rl.attempts key = l)
    (hkeep : ∀ t ∈ l, now - t < rl.window_seconds)
    (hlen : l.length < rl.max_attempts) :
    rl.is_allowed key now =
      ({ rl with attempts := fun k => if k = key then l ++ [now] else rl.attempts k },
       true, 0) := by
  have hfilt : (rl.attempts key).filter
      (fun t => decide (now - t < rl.window_seconds)) = l := by
    rw [hl]
    exact List.filter_eq_self.mpr (fun t ht => by simpa using hkeep t ht)
  simp only [RateLimiter.is_allowed, hfilt]
  rw [if_neg (Nat.not_le.mpr hlen)]

theorem is_allowed_step_deny (rl : RateLimiter κ) (key : κ) (now : Int)
    (l : List Int) (hl : rl.attempts key = l)
    (hkeep : ∀ t ∈ l, now - t < rl.window_seconds)
    (hlen : rl.max_attempts ≤ l.length) :
    rl.is_allowed key now =
      ({ rl with attempts := fun k => if k = key then l else rl.attempts k },
       false, rl.window_seconds - (now - l.headI) + 1) := by
  have hfilt : (rl.attempts key).filter
      (fun t => decide (now - t < rl.window_seconds)) = l := by
    rw [hl]
    exact List.filter_eq_self.mpr (fun t ht => by simpa using hkeep t ht)
  simp only [RateLimiter.is_allowed, hfilt]
  rw [if_pos hlen]

/-- Congruence for `is_allowed`: two limiters with the same parameters, the
same pruned list for the probed key, and the same lists for every other key
behave identically. -/
theorem is_allowed_ext (rl rl' : RateLimiter κ) (key : κ) (now2 : Int)
    (hmax : rl.max_attempts = rl'.max_attempts)
    (hwin : rl.window_seconds = rl'.window_seconds)
    (hprune : (rl.attempts key).filter (fun t => decide (now2 - t < rl.window_seconds)) =
        (rl'.attempts key).filter (fun t => decide (now2 - t < rl'.window_seconds)))
    (hother : ∀ k, k ≠ key → rl.attempts k = rl'.attempts k) :
    rl.is_allowed key now2 = rl'.is_allowed key now2 := by
  simp only [RateLimiter.is_allowed]
  rw [hprune, hmax, hwin]
  by_cases hc : rl'.max_attempts ≤
      ((rl'.attempts key).filter (fun t => decide (now2 - t < rl'.window_seconds))).length
  · rw [if_pos hc, if_pos hc]
    congr 2
    funext k
    by_cases hk : k = key
    · simp [hk]
    · simp [hk, hother k hk]
  · rw [if_neg hc, if_neg hc]
    congr 2
    funext k
    by_cases hk : k = key
    · simp [hk]
    · simp [hk, hother k hk]

/-- **C10** (confirmed). A denied `is_allowed` call does not record the
current timestamp: the key's list afterwards is exactly the pruned list of
previously recorded (allowed) attempts.  Consequently at any later time the
limiter behaves exactly as if the denied call had never happened — denied
attempts never extend the denial period. -/
theorem rateLimiter_denied_no_append (rl : RateLimiter κ) (key : κ)
    (now now2 : Int) (hle : now ≤ now2)
    (hdenied : (rl.is_allowed key now).2.1 = false) :
    (rl.is_allowed key now).1.attempts key =
      (rl.attempts key).filter (fun t => decide (now - t < rl.window_seconds))
    ∧ (rl.is_allowed key now).1.is_allowed key now2 = rl.is_allowed key now2 := by
  by_cases hc : rl.max_attempts ≤
      ((rl.attempts key).filter (fun t => decide (now - t < rl.window_seconds))).length
  case neg =>
    simp [RateLimiter.is_allowed, hc] at hdenied
  case pos =>
    have h1 : rl.is_allowed key now =
        ({ rl with attempts := fun k => if k = key then
              (rl.attempts key).filter (fun t => decide (now - t < rl.window_seconds))
            else rl.attempts k },
         false, rl.window_seconds -
           (now - ((rl.attempts key).filter
             (fun t => decide (now - t < rl.window_seconds))).headI) + 1) := by
      simp only [RateLimiter.is_allowed]
      rw [if_pos hc]
    have hatt : (rl.is_allowed key now).1.attempts key =
        (rl.attempts key).filter (fun t => decide (now - t < rl.window_seconds)) := by
      rw [h1]
      simp
    refine ⟨hatt, ?_⟩
    have hff : ((rl.is_allowed key now).1.attempts key).filter
          (fun t => decide (now2 - t < rl.window_seconds)) =
        (rl.attempts key).filter (fun t => decide (now2 - t < rl.window_seconds)) := by
      rw [hatt, List.filter_filter]
      apply List.filter_congr
      intro t ht
      by_cases h2 : now2 - t < rl.window_seconds
      · have h3 : now - t < rl.window_seconds := by omega
        simp [h2, h3]
      · simp [h2]
    have hwin : (rl.is_allowed key now).1.window_seconds = rl.window_seconds := by
      rw [h1]
    have hmaxa : (rl.is_allowed key now).1.max_attempts = rl.max_attempts := by
      rw [h1]
    have hother : ∀ k, k ≠ key →
        (rl.is_allowed key now).1.attempts k = rl.attempts k := by
      intro k hk
      rw [h1]
      simp [hk]
    apply is_allowed_ext
    · exact hmaxa
    · exact hwin
    · rw [hwin]
      exact hff
    · exact hother

/-- Witness for `rateLimiter_denied_no_append`: a limiter holding five
attempts at time 0 for key `"k"` denies a call at time 1; the denial leaves
the pruned list unchanged and a call at time 2 behaves as if the denied call
had never happened. -/
theorem rateLimiter_denied_no_append_witness :
    (((rlState [0, 0, 0, 0, 0]).is_allowed "k" 1).1.attempts "k" =
      ((rlState [0, 0, 0, 0, 0]).attempts "k").filter
        (fun t => decide (1 - t < (rlState [0, 0, 0, 0, 0]).window_seconds)))
    ∧ ((rlState [0, 0, 0, 0, 0]).is_allowed "k" 1).1.is_allowed "k" 2 =
        (rlState [0, 0, 0, 0, 0]).is_allowed "k" 2 :=
  rateLimiter_denied_no_append (rlState [0, 0, 0, 0, 0]) "k" 1 2 (by decide)
    (by decide)

theorem connect_rate_limiter_eq_rlState : connect_rate_limiter = rlState [] := by
  unfold connect_rate_limiter rlState
  congr 1
  funext k
  by_cases hk : k = "k" <;> simp [hk]

theorem rlRun_allow (l ts : List Int) (now : Int)
    (hkeep : ∀ t ∈ l, now - t < 60) (hlen : l.length < 5) :
    rlRun (rlState l) (now :: ts) = (true, 0) :: rlRun (rlState (l ++ [now])) ts := by
  have h1 : (rlState l).is_allowed "k" now = (rlState (l ++ [now]), true, 0) := by
    rw [is_allowed_step_allow (rlState l) "k" now l (by simp [rlState]) hkeep hlen]
    unfold rlState
    congr 2
    funext k
    by_cases hk : k = "k" <;> simp [hk]
  simp only [rlRun, h1]

theorem rlRun_deny (l ts : List Int) (now : Int)
    (hkeep : ∀ t ∈ l, now - t < 60) (hlen : 5 ≤ l.length) :
    rlRun (rlState l) (now :: ts) =
      (false, 60 - (now - l.headI) + 1) :: rlRun (rlState l) ts := by
  have h1 : (rlState l).is_allowed "k" now =
      (rlState l, false, 60 - (now - l.headI) + 1) := by
    rw [is_allowed_step_deny (rlState l) "k" now l (by simp [rlState]) hkeep hlen]
    unfold rlState
    congr 2
    funext k
    by_cases hk : k = "k" <;> simp [hk]
  simp only [rlRun, h1]

theorem rlRun_allow_of_window (l ts : List Int) (now : Int)
    (hlen : (l.filter (fun t => decide (now - t < 60))).length < 5) :
    rlRun (rlState l) (now :: ts) = (true, 0) ::
      rlRun ((rlState l).is_allowed "k" now).1 ts := by
  have hatt : (rlState l).attempts "k" = l := by simp [rlState]
  have hw : (rlState l).window_seconds = 60 := rfl
  have hm : (rlState l).max_attempts = 5 := rfl
  have h2 : ((rlState l).is_allowed "k" now).2 = (true, 0) := by
    simp only [RateLimiter.is_allowed, hatt, hw, hm]
    rw [if_neg (Nat.not_le.mpr hlen)]
  simp only [rlRun, h2]

/-- **C6** (confirmed). Sliding-window behaviour of the connection rate
limiter (`max_attempts=5`, `window_seconds=60`): five calls at
non-decreasing times within the window are all allowed; the sixth call at a
time still within 60s of the first is denied with
`seconds_until_reset = window - (now - oldest) + 1` (which is at least 1, and
at most 61 when the six calls fall within one second); and a call more than
60 seconds after the first recorded attempt is allowed again. -/
theorem rateLimiter_window (t0 t1 t2 t3 t4 t5 t6 : Int)
    (h01 : t0 ≤ t1) (h12 : t1 ≤ t2) (h23 : t2 ≤ t3) (h34 : t3 ≤ t4) (h45 : t4 ≤ t5)
    (hwin : t5 - t0 < 60) (hpast : 60 < t6 - t0) :
    rlRun connect_rate_limiter [t0, t1, t2, t3, t4, t5, t6] =
      [(true, 0), (true, 0), (true, 0), (true, 0), (true, 0),
       (false, 60 - (t5 - t0) + 1), (true, 0)]
    ∧ 1 ≤ 60 - (t5 - t0) + 1 := by
  constructor
  · rw [connect_rate_limiter_eq_rlState]
    rw [rlRun_allow [] [t1, t2, t3, t4, t5, t6] t0 (by simp) (by simp)]
    simp only [List.cons_append, List.nil_append]
    rw [rlRun_allow [t0] [t2, t3, t4, t5, t6] t1
      (by intro t ht; simp at ht; subst ht; omega) (by simp)]
    simp only [List.cons_append, List.nil_append]
    rw [rlRun_allow [t0, t1] [t3, t4, t5, t6] t2
      (by intro t ht; simp at ht; rcases ht with rfl | rfl <;> omega) (by simp)]
    simp only [List.cons_append, List.nil_append]
    rw [rlRun_allow [t0, t1, t2] [t4, t5, t6] t3
      (by intro t ht; simp at ht; rcases ht with rfl | rfl | rfl <;> omega) (by simp)]
    simp only [List.cons_append, List.nil_append]
    rw [rlRun_allow [t0, t1, t2, t3] [t5, t6] t4
      (by intro t ht; simp at ht; rcases ht with rfl | rfl | rfl | rfl <;> omega)
      (by simp)]
    simp only [List.cons_append, List.nil_append]
    rw [rlRun_deny [t0, t1, t2, t3, t4] [t6] t5
      (by intro t ht; simp at ht; rcases ht with rfl | rfl | rfl | rfl | rfl <;> omega)
      (by simp)]
    rw [rlRun_allow_of_window [t0, t1, t2, t3, t4] [] t6
      (by
        rw [List.filter_cons_of_neg (by simp; omega)]
        have hfl := List.length_filter_le (fun t => decide (t6 - t < 60))
          [t1, t2, t3, t4]
        simp at hfl ⊢
        omega)]
    simp [rlRun, List.headI]
  · omega

/-- Witness for `rateLimiter_window` at the concrete times
`0, 0, 0, 0, 0, 0, 61`: the sixth call is denied with
`seconds_until_reset = 61` and the call at 61 seconds is allowed again. -/
theorem rateLimiter_window_witness :
    rlRun connect_rate_limiter [0, 0, 0, 0, 0, 0, 61] =
      [(true, 0), (true, 0), (true, 0), (true, 0), (true, 0),
       (false, 60 - ((0 : Int) - 0) + 1), (true, 0)]
    ∧ 1 ≤ 60 - ((0 : Int) - 0) + 1 :=
  rateLimiter_window 0 0 0 0 0 0 61 (by decide) (by decide) (by decide) (by decide)
    (by decide) (by decide) (by decide)

/-! ## Discovery-config cache -/

theorem lookupKey_append_of_none {k : κ} {l l' : List (κ × β)}
    (h : lookupKey k l = none) :
    lookupKey k (l ++ l') = lookupKey k l' := by
  induction l with
  | nil => simp
  | cons a t ih =>
    obtain ⟨a1, a2⟩ := a
    by_cases h1 : a1 = k
    · rw [lookupKey, if_pos h1] at h
      simp at h
    · rw [lookupKey, if_neg h1] at h
      rw [List.cons_append, lookupKey, if_neg h1]
      exact ih h

/-- Counterexample to **C7** as stated: the cache is constructed as
`TTLCache(maxsize=100, ttl=300)`, so its time-to-live is not the claimed 15
minutes (900 s) and its capacity cap is not the claimed 10000. -/
theorem configCache_params_counterexample :
    ¬ (SYSTEM_CONFIG_CACHE.ttl = 15 * 60 ∧ SYSTEM_CONFIG_CACHE.maxsize = 10000) := by
  decide

/-- **C7** (corrected). The per-session discovery-config cache is a TTL store
keyed by session id with a time-to-live of 300 seconds (5 minutes, not 15)
and a capacity cap of 100 entries (not 10000); storing a config under a
session id replaces whatever was cached for that id. -/
theorem configCache_params (c : TTLCache Nat) (key : String) (v : Nat) (now : Int) :
    SYSTEM_CONFIG_CACHE.ttl = 300
    ∧ SYSTEM_CONFIG_CACHE.ttl = 5 * 60
    ∧ SYSTEM_CONFIG_CACHE.maxsize = 100
    ∧ lookupKey key (c.setItem key v now).entries = some (v, now) := by
  refine ⟨rfl, rfl, rfl, ?_⟩
  unfold TTLCache.setItem
  rw [lookupKey_append_of_none (lookupKey_filter_self key c.entries)]
  simp [lookupKey]

/-! ## Lock/probe trace of get_session -/

/-- Counterexample to **C8** as stated: for the registered live session `"a"`
of `mgr0`, the `get_session` event trace performs the connection probe while
the registry lock is held — not outside the lock as the spec requires. -/
theorem get_session_probe_locked_counterexample :
    probeUnderLock (mgr0.get_session_trace "a" 0) = true := by
  decide

/-- **C8** (corrected). Whenever `get_session` reaches the liveness probe (a
registered, non-idle-expired session), the probe — a `SELECT 1` network
round-trip — executes *inside* the single `with self._lock:` block that
spans the whole method body: the trace opens with the lock acquisition,
closes with the release, and the probe happens while the lock is held.  A
slow or dead connection therefore does block lookups of other sessions. -/
theorem get_session_probe_under_lock (m : SessionManager) (sid : String)
    (now : Int) (sess : SnowflakeSession)
    (hs : lookupKey sid m.sessions = some sess)
    (he : sess.is_expired now m.max_idle_minutes = false) :
    probeUnderLock (m.get_session_trace sid now) = true
    ∧ (m.get_session_trace sid now).head? = some RegistryEvent.lockAcquire
    ∧ (m.get_session_trace sid now).getLast? = some RegistryEvent.lockRelease := by
  cases ha : sess.alive
  · have htr : m.get_session_trace sid now =
        [RegistryEvent.lockAcquire, RegistryEvent.mapLookup, RegistryEvent.probe,
         RegistryEvent.removeClose, RegistryEvent.lockRelease] := by
      unfold SessionManager.get_session_trace
      rw [hs]
      simp [he, ha]
    rw [htr]
    exact ⟨by decide, by decide, by decide⟩
  · have htr : m.get_session_trace sid now =
        [RegistryEvent.lockAcquire, RegistryEvent.mapLookup, RegistryEvent.probe,
         RegistryEvent.touchSession, RegistryEvent.lockRelease] := by
      unfold SessionManager.get_session_trace
      rw [hs]
      simp [he, ha]
    rw [htr]
    exact ⟨by decide, by decide, by decide⟩

/-- Witness for `get_session_probe_under_lock` at the live session `"a"` of
`mgr0`. -/
theorem get_session_probe_under_lock_witness :
    probeUnderLock (mgr0.get_session_trace "a" 0) = true
    ∧ (mgr0.get_session_trace "a" 0).head? = some RegistryEvent.lockAcquire
    ∧ (mgr0.get_session_trace "a" 0).getLast? = some RegistryEvent.lockRelease :=
  get_session_probe_under_lock mgr0 "a" 0 liveSession (by decide) (by decide)

/-! ## LRU scenario on canonical stores -/

theorem keysOf_canon (N : Nat) (l : List Nat) :
    keysOf (canonStore N l).results = l := by
  simp [keysOf, canonStore]
  exact List.map_id l

theorem lookup_canon_none {k : Nat} {l : List Nat} (hk : k ∉ l) :
    lookupKey k (l.map (fun j => (j, entry0))) = none := by
  rw [lookupKey_eq_none]
  intro p hp
  obtain ⟨a, ha, rfl⟩ := List.mem_map.mp hp
  intro hc
  exact hk (hc ▸ ha)

theorem evict_expired_canon (N : Nat) (l : List Nat) :
    (canonStore N l).evict_expired 0 = canonStore N l := by
  unfold QueryResultStore.evict_expired
  have hkeep : (canonStore N l).results.filter
      (fun p => !(p.2.is_expired 0 (canonStore N l).ttl_minutes)) =
      (canonStore N l).results := by
    apply List.filter_eq_self.mpr
    intro p hp
    obtain ⟨a, ha, rfl⟩ := List.mem_map.mp hp
    show (!(entry0.is_expired 0 QUERY_RESULT_TTL_MINUTES)) = true
    decide
  have hexp : (canonStore N l).results.filter
      (fun p => p.2.is_expired 0 (canonStore N l).ttl_minutes) = [] := by
    apply List.filter_eq_nil_iff.mpr
    intro p hp
    obtain ⟨a, ha, rfl⟩ := List.mem_map.mp hp
    show ¬ (entry0.is_expired 0 QUERY_RESULT_TTL_MINUTES = true)
    decide
  rw [hkeep, hexp]
  simp

theorem evictCountLoop_no_evict (fuel : Nat) (s : QueryResultStore κ α)
    (h : s.results.length < s.max_results) :
    QueryResultStore.evictCountLoop fuel s = s := by
  cases fuel with
  | zero => rfl
  | succ n =>
    rw [QueryResultStore.evictCountLoop, if_neg (by omega)]

theorem evictBytesLoop_no_evict (fuel : Nat) (z : Int) (s : QueryResultStore κ α)
    (h : s.total_size_bytes + z ≤ s.max_size_bytes) :
    QueryResultStore.evictBytesLoop fuel z s = s := by
  cases fuel with
  | zero => rfl
  | succ n =>
    rw [QueryResultStore.evictBytesLoop, if_neg (by omega)]

theorem evict_oldest_canon (N : Nat) (h : Nat) (t : List Nat) (hnt : h ∉ t) :
    (canonStore N (h :: t)).evict_oldest = canonStore N t := by
  have hres : (canonStore N (h :: t)).results =
      (h, entry0) :: t.map (fun j => (j, entry0)) := rfl
  unfold QueryResultStore.evict_oldest
  rw [hres]
  show (canonStore N (h :: t)).removeId h = canonStore N t
  unfold QueryResultStore.removeId
  have hl : lookupKey h (canonStore N (h :: t)).results = some entry0 := by
    rw [hres]
    simp [lookupKey]
  rw [hl]
  have hfilt : (canonStore N (h :: t)).results.filter (fun p => decide (p.1 ≠ h)) =
      t.map (fun j => (j, entry0)) := by
    rw [hres, List.filter_cons_of_neg (by simp)]
    exact filter_ne_eq_self_of_lookup_none (lookup_canon_none hnt)
  rw [hfilt]
  simp [canonStore, entry0, QueryResult.make, estZero]

theorem put_canon (N : Nat) (l : List Nat) (k : Nat) (hN : 1 ≤ N)
    (hnd : l.Nodup) (hk : k ∉ l) (hlen : l.length ≤ N) :
    (canonStore N l).put estZero k 0 0 =
      canonStore N ((if l.length = N then l.tail else l) ++ [k]) := by
  have h1 : (canonStore N l).evict_expired 0 = canonStore N l :=
    evict_expired_canon N l
  by_cases hfull : l.length = N
  · obtain ⟨h, t, rfl⟩ : ∃ h t, l = h :: t := by
      cases l with
      | nil => simp at hfull; omega
      | cons h t => exact ⟨h, t, rfl⟩
    have hhnt : h ∉ t := (List.nodup_cons.mp hnd).1
    have hkt : k ∉ t := fun hmem => hk (List.mem_cons_of_mem h hmem)
    have hlen1 : (canonStore N (h :: t)).results.length = t.length + 1 := by
      simp [canonStore]
    have hNval : N = t.length + 1 := by
      simpa using hfull.symm
    have h2 : QueryResultStore.evictCountLoop
        (canonStore N (h :: t)).results.length (canonStore N (h :: t)) =
        canonStore N t := by
      rw [hlen1, QueryResultStore.evictCountLoop]
      rw [if_pos ⟨by rw [hlen1]; show N ≤ t.length + 1; omega, by rw [hlen1]; omega⟩]
      rw [evict_oldest_canon N h t hhnt]
      exact evictCountLoop_no_evict _ _ (by simp [canonStore]; omega)
    have h3 : QueryResultStore.evictBytesLoop (canonStore N t).results.length
        (QueryResult.make estZero 0 0).size_bytes (canonStore N t) =
        canonStore N t :=
      evictBytesLoop_no_evict _ _ _
        (by norm_num [canonStore, QueryResult.make, estZero, MAX_RESULT_SIZE_BYTES])
    have hlookT : lookupKey k (canonStore N t).results = none :=
      lookup_canon_none hkt
    have hfiltT : (canonStore N t).results.filter (fun p => decide (p.1 ≠ k)) =
        (canonStore N t).results :=
      filter_ne_eq_self_of_lookup_none hlookT
    simp only [QueryResultStore.put]
    rw [h1, h2, h3, hfiltT, if_pos hfull, List.tail_cons]
    simp [canonStore, entry0, QueryResult.make, estZero, List.map_append]
  · have h2 : QueryResultStore.evictCountLoop
        (canonStore N l).results.length (canonStore N l) = canonStore N l :=
      evictCountLoop_no_evict _ _ (by simp [canonStore]; omega)
    have h3 : QueryResultStore.evictBytesLoop (canonStore N l).results.length
        (QueryResult.make estZero 0 0).size_bytes (canonStore N l) =
        canonStore N l :=
      evictBytesLoop_no_evict _ _ _
        (by norm_num [canonStore, QueryResult.make, estZero, MAX_RESULT_SIZE_BYTES])
    have hlookT : lookupKey k (canonStore N l).results = none :=
      lookup_canon_none hk
    have hfiltT : (canonStore N l).results.filter (fun p => decide (p.1 ≠ k)) =
        (canonStore N l).results :=
      filter_ne_eq_self_of_lookup_none hlookT
    simp only [QueryResultStore.put]
    rw [h1, h2, h3, hfiltT, if_neg hfull]
    simp [canonStore, entry0, QueryResult.make, estZero, List.map_append]

theorem insertSeq_fill (N : Nat) (hN : 1 ≤ N) :
    ∀ (ks l : List Nat), (l ++ ks).Nodup → l.length + ks.length ≤ N →
    insertSeq ks (canonStore N l) = canonStore N (l ++ ks) := by
  intro ks
  induction ks with
  | nil =>
    intro l _ _
    simp [insertSeq]
  | cons k ks ih =>
    intro l hnd hlen
    have hndl : l.Nodup := hnd.of_append_left
    have hdisj : l.Disjoint (k :: ks) := List.disjoint_of_nodup_append hnd
    have hkl : k ∉ l := fun hmem => hdisj hmem (List.mem_cons_self k ks)
    have step : (canonStore N l).put estZero k 0 0 = canonStore N (l ++ [k]) := by
      rw [put_canon N l k hN hndl hkl (by simp at hlen; omega)]
      rw [if_neg (by simp at hlen; omega)]
    have hrec := ih (l ++ [k])
      (by rw [List.append_assoc]; simpa using hnd)
      (by simp at hlen ⊢; omega)
    show insertSeq (k :: ks) (canonStore N l) = canonStore N (l ++ k :: ks)
    simp only [insertSeq, List.foldl_cons]
    rw [step]
    have hgoal := hrec
    simp only [insertSeq] at hgoal
    rw [hgoal, List.append_assoc, List.singleton_append]

theorem get_canon_miss (N : Nat) (l : List Nat) (k : Nat) (hk : k ∉ l) :
    (canonStore N l).get k 0 = (canonStore N l, none) := by
  have hlk : lookupKey k (canonStore N l).results = none := lookup_canon_none hk
  unfold QueryResultStore.get
  rw [hlk]

/-- **C5** (confirmed). Strict LRU recency of `QueryResultStore`.  For every
capacity `N ≥ 1`: inserting the `N+1` distinct keys `1..N+1` in order into an
empty store (size estimate 0, all at time 0) leaves exactly the keys
`2..N+1`, oldest first — inserting key `N+1` already evicted key 1, the least
recently used.  A `get` of key 1 is then a miss and changes nothing, and the
eviction triggered by inserting key `N+2` removes key 2 — the least recently
used entry — and not key 1: afterwards the store holds `3..N+1, N+2`, key 2
gone.  In general the evicted entry is always the front (least recently used)
entry of the ordered dict, and an entry touched by `get` or written by `put`
moves to the back (most recently used) position. -/
theorem resultCache_lru (N : Nat) (hN : 1 ≤ N) :
    (insertSeq (List.range' 1 (N + 1)) (canonStore N []) =
      canonStore N (List.range' 2 N))
    ∧ ((canonStore N (List.range' 2 N)).get 1 0 =
        (canonStore N (List.range' 2 N), none))
    ∧ ((canonStore N (List.range' 2 N)).put estZero (N + 2) 0 0 =
        canonStore N (List.range' 3 (N - 1) ++ [N + 2]))
    ∧ (2 ∈ keysOf (canonStore N (List.range' 2 N)).results)
    ∧ (2 ∉ keysOf (canonStore N (List.range' 3 (N - 1) ++ [N + 2])).results)
    ∧ (∀ (s : QueryResultStore Nat Nat) (k : Nat) (e : QueryResult Nat)
        (t : List (Nat × QueryResult Nat)), s.results = (k, e) :: t →
        k ∉ keysOf t → (s.evict_oldest).results = t)
    ∧ (∀ (s : QueryResultStore Nat Nat) (qid : Nat) (now : Int) (r : QueryResult Nat),
        lookupKey qid s.results = some r → r.is_expired now s.ttl_minutes = false →
        (s.get qid now).1.results.getLast? =
          some (qid, { r with last_accessed := now }))
    ∧ (∀ (s : QueryResultStore Nat Nat) (qid : Nat) (d : Nat) (now : Int),
        (s.put estZero qid d now).results.getLast? =
          some (qid, QueryResult.make estZero d now)) := by
  refine ⟨?_, ?_, ?_, ?_, ?_, ?_, ?_, ?_⟩
  · have hrange : List.range' 1 (N + 1) = List.range' 1 N ++ [1 + N] :=
      List.range'_1_concat 1 N
    have hfillA : insertSeq (List.range' 1 N) (canonStore N []) =
        canonStore N (List.range' 1 N) :=
      insertSeq_fill N hN (List.range' 1 N) []
        (by simpa using List.nodup_range' 1 N) (by simp)
    have hsplit : insertSeq (List.range' 1 (N + 1)) (canonStore N []) =
        (insertSeq (List.range' 1 N) (canonStore N [])).put estZero (1 + N) 0 0 := by
      rw [hrange]
      simp [insertSeq, List.foldl_append]
    have hputTop : (canonStore N (List.range' 1 N)).put estZero (1 + N) 0 0 =
        canonStore N (List.range' 2 N) := by
      rw [put_canon N (List.range' 1 N) (1 + N) hN (List.nodup_range' 1 N)
        (by intro hmem; have := List.mem_range'_1.mp hmem; omega) (by simp)]
      rw [if_pos (by simp)]
      rw [List.tail_range']
      congr 1
      have h := List.range'_1_concat 2 (N - 1)
      rw [show N - 1 + 1 = N from by omega] at h
      rw [h, show 1 + N = 2 + (N - 1) from by omega]
    rw [hsplit, hfillA, hputTop]
  · exact get_canon_miss N _ 1
      (by intro hmem; have := List.mem_range'_1.mp hmem; omega)
  · rw [put_canon N (List.range' 2 N) (N + 2) hN (List.nodup_range' 2 N)
      (by intro hmem; have := List.mem_range'_1.mp hmem; omega) (by simp)]
    rw [if_pos (by simp)]
    rw [List.tail_range']
  · rw [keysOf_canon]
    exact List.mem_range'_1.mpr ⟨le_refl 2, by omega⟩
  · rw [keysOf_canon]
    intro hmem
    rcases List.mem_append.mp hmem with h | h
    · have := List.mem_range'_1.mp h
      omega
    · simp at h
      omega
  · intro s k e t hres hk
    unfold QueryResultStore.evict_oldest
    rw [hres]
    show (s.removeId k).results = t
    unfold QueryResultStore.removeId
    have hl : lookupKey k s.results = some e := by
      rw [hres]
      simp [lookupKey]
    rw [hl]
    show s.results.filter (fun p => decide (p.1 ≠ k)) = t
    rw [hres, List.filter_cons_of_neg (by simp)]
    apply List.filter_eq_self.mpr
    intro p hp
    simp only [decide_eq_true_eq]
    intro hc
    apply hk
    show k ∈ keysOf t
    rw [← hc]
    exact List.mem_map_of_mem Prod.fst hp
  · intro s qid now r hr he
    have hg : (s.get qid now).1 =
        { s with results := s.results.filter (fun p => decide (p.1 ≠ qid)) ++
            [(qid, { r with last_accessed := now })] } := by
      unfold QueryResultStore.get
      rw [hr]
      simp [he]
    rw [hg]
    exact List.getLast?_concat _
  · intro s qid d now
    have hp : (s.put estZero qid d now).results =
        (s.prePut (estZero d) now).results.filter (fun p => decide (p.1 ≠ qid)) ++
          [(qid, QueryResult.make estZero d now)] := rfl
    rw [hp]
    exact List.getLast?_concat _

/-- Witness instantiating `resultCache_lru` at capacity `N = 3`: keys 1..4
fill and roll the store to `[2,3,4]`, the miss-`get` of key 1 changes
nothing, and inserting key 5 evicts key 2. -/
theorem resultCache_lru_witness :
    (insertSeq (List.range' 1 4) (canonStore 3 []) =
      canonStore 3 (List.range' 2 3))
    ∧ ((canonStore 3 (List.range' 2 3)).get 1 0 =
        (canonStore 3 (List.range' 2 3), none))
    ∧ ((canonStore 3 (List.range' 2 3)).put estZero 5 0 0 =
        canonStore 3 (List.range' 3 2 ++ [5]))
    ∧ (2 ∈ keysOf (canonStore 3 (List.range' 2 3)).results)
    ∧ (2 ∉ keysOf (canonStore 3 (List.range' 3 2 ++ [5])).results)
    ∧ (∀ (s : QueryResultStore Nat Nat) (k : Nat) (e : QueryResult Nat)
        (t : List (Nat × QueryResult Nat)), s.results = (k, e) :: t →
        k ∉ keysOf t → (s.evict_oldest).results = t)
    ∧ (∀ (s : QueryResultStore Nat Nat) (qid : Nat) (now : Int) (r : QueryResult Nat),
        lookupKey qid s.results = some r → r.is_expired now s.ttl_minutes = false →
        (s.get qid now).1.results.getLast? =
          some (qid, { r with last_accessed := now }))
    ∧ (∀ (s : QueryResultStore Nat Nat) (qid : Nat) (d : Nat) (now : Int),
        (s.put estZero qid d now).results.getLast? =
          some (qid, QueryResult.make estZero d now)) :=
  resultCache_lru 3 (by decide)

end MDLH
